import Mathlib

/-
Verification development for the streaming ingestion and reconciliation
pipeline of retrovisor/persona.

The repository contains one primary route handler,
src/app/api/wordware/route.ts, whose file concatenates three near-duplicate
variants of the handler (called variant A, variant B and variant C below, in
file order), plus two further unnamed variants, part_000 (a character-wise
decoder loop) and part_001 (a variant with an end-of-stream fallback save and
an unconditional chunk relay).

The embedding below models, faithfully to the source:
  - the stream event data type of the upstream NDJSON protocol;
  - the generation state trackers of variant A (route.ts line 120, an
    unconditional boolean assignment on every generation event) and of
    variant B (route.ts lines 299-308, a label-guarded update);
  - the event stream decoders: the buffered decoder of variant A
    (route.ts lines 104-133) and the per-chunk decoder of variant C
    (route.ts lines 470-476).  Chunks are modelled as raw byte lists
    (newline = byte 10), so arbitrary chunk boundaries, including boundaries
    inside a multi-byte UTF-8 character, are representable.  For variant A
    this byte-buffer model is exact: the source combines
    TextDecoder(stream true) with a persistent text buffer, which defers
    bytes of incomplete UTF-8 sequences across chunks, and newline splitting
    commutes with UTF-8 decoding because byte 10 never occurs inside a
    multi-byte sequence.  The character-wise loops of part_000 and variants
    B and C instead call decoder.decode(value) per chunk without the
    streaming option, so their text decoding is not byte-transparent across
    chunk boundaries (a chunk boundary inside a multi-byte character yields
    replacement characters); no byte-level model is given for them beyond
    the line-splitting structure of variant C, whose counterexample below
    needs only ASCII input.  JSON parsing of one complete line is an
    external platform facility and is passed in as a parameter
    dl : List Nat -> Option StreamEvent, with none modelling a JSON.parse
    exception (which the source catches per line).
  - the user record, the admission check (route.ts lines 20-28), the
    analysis merge and the failure rollback of handleFinalOutput
    (route.ts lines 152-187), and the per-run stream processing state of
    variant A (route.ts lines 80-144) and of part_001 (lines 164-259).
-/

/-- JSON-object view used for the analysis mapping of the user record: a
partial map from property name to (serialized) property value, observed
through property lookup, as a JavaScript object spread sees it. -/
def Obj : Type := String → Option String

/-- One decoded event of the upstream newline-delimited JSON protocol.  The
source reads content.value of each parsed line and discriminates on its type
tag; the outputs payload is the object content.value.values.output, modelled
as an association list of properties. -/
inductive StreamEvent where
  | generation (state label : String)
  | chunk (val : Option String)
  | outputs (output : List (String × String))
  deriving DecidableEq, Repr

/-- Variant A tracker step, route.ts line 120:
finalOutput = (value.state === start && value.label === output) executed on
every generation event; chunk and outputs events leave the flag alone. -/
def stepFlagA (f : Bool) (e : StreamEvent) : Bool :=
  match e with
  | .generation st lb => st == "start" && lb == "output"
  | _ => f

/-- The variant A insideFinalOutput flag after a sequence of events
(initially false, route.ts line 82). -/
def trackA (events : List StreamEvent) : Bool :=
  events.foldl stepFlagA false

/-- Variant B tracker step, route.ts lines 299-308: the flag is only written
when the label is output (set on a start, cleared on a non-start), and is
left unchanged on generation events with any other label. -/
def stepFlagB (f : Bool) (e : StreamEvent) : Bool :=
  match e with
  | .generation st lb =>
      if st = "start" then (if lb = "output" then true else f)
      else (if lb = "output" then false else f)
  | _ => f

/-- The variant B insideFinalOutput flag after a sequence of events. -/
def trackB (events : List StreamEvent) : Bool :=
  events.foldl stepFlagB false

/-- A generation event labeled output. -/
def isOutputGen (e : StreamEvent) : Bool :=
  match e with
  | .generation _ lb => lb == "output"
  | _ => false

/-- Any generation event. -/
def isGenEvent (e : StreamEvent) : Bool :=
  match e with
  | .generation _ _ => true
  | _ => false

/-- Modelled from the claim wording, for comparison with the code: true iff
the most recent output-labeled generation event in the sequence was a start
(false when there is none). -/
def specInsideFinalOutput (events : List StreamEvent) : Bool :=
  match events.reverse.find? isOutputGen with
  | some (.generation st _) => st == "start"
  | _ => false

/-- True iff the most recent generation event of any label was an
output-labeled start: the exact characterisation of the variant A flag. -/
def lastGenOutputStart (events : List StreamEvent) : Bool :=
  match events.reverse.find? isGenEvent with
  | some (.generation st lb) => st == "start" && lb == "output"
  | _ => false

theorem trackA_snoc (l : List StreamEvent) (e : StreamEvent) :
    trackA (l ++ [e]) = stepFlagA (trackA l) e := by
  simp [trackA, List.foldl_append]

theorem trackB_snoc (l : List StreamEvent) (e : StreamEvent) :
    trackB (l ++ [e]) = stepFlagB (trackB l) e := by
  simp [trackB, List.foldl_append]

theorem specInside_snoc (l : List StreamEvent) (e : StreamEvent) :
    specInsideFinalOutput (l ++ [e]) = stepFlagB (specInsideFinalOutput l) e := by
  unfold specInsideFinalOutput
  rw [List.reverse_append]
  cases e with
  | generation st lb =>
      by_cases h : lb = "output"
      · subst h
        by_cases hs : st = "start" <;>
          simp [List.find?, isOutputGen, stepFlagB, hs]
      · have hb : (lb == "output") = false := by simp [h]
        simp [List.find?, isOutputGen, hb, stepFlagB, h]
  | chunk v => simp [List.find?, isOutputGen, stepFlagB]
  | outputs o => simp [List.find?, isOutputGen, stepFlagB]

theorem lastGen_snoc (l : List StreamEvent) (e : StreamEvent) :
    lastGenOutputStart (l ++ [e]) = stepFlagA (lastGenOutputStart l) e := by
  unfold lastGenOutputStart
  rw [List.reverse_append]
  cases e with
  | generation st lb => simp [List.find?, isGenEvent, stepFlagA]
  | chunk v => simp [List.find?, isGenEvent, stepFlagA]
  | outputs o => simp [List.find?, isGenEvent, stepFlagA]

/-- Claim C1, counterexample.  In the primary (variant A) tracker, a
generation event with a label other than output does not leave the flag
unchanged: after a start of the output phase followed by a start of a
differently labeled phase, the flag is false, although the most recent
output-labeled generation event was a start (so the claim would require
true). -/
theorem c1_counterexample :
    trackA [StreamEvent.generation "start" "output",
            StreamEvent.generation "start" "reasoning"] = false ∧
    specInsideFinalOutput [StreamEvent.generation "start" "output",
                           StreamEvent.generation "start" "reasoning"] = true := by
  constructor <;> rfl

/-- Claim C1, amended.  The variant B tracker (route.ts lines 299-308)
satisfies the claim as stated: its flag after any event sequence is true iff
the most recent output-labeled generation event was a start.  The variant A
tracker (route.ts line 120) instead overwrites the flag on every generation
event with (state = start and label = output), so its flag is true iff the
most recent generation event of any label was an output-labeled start. -/
theorem c1_amended_tracker (events : List StreamEvent) :
    trackB events = specInsideFinalOutput events ∧
    trackA events = lastGenOutputStart events := by
  induction events using List.reverseRecOn with
  | nil => exact ⟨rfl, rfl⟩
  | append_singleton l e ih =>
      refine ⟨?_, ?_⟩
      · rw [trackB_snoc, specInside_snoc, ih.1]
      · rw [trackA_snoc, lastGen_snoc, ih.2]

/-- Whitespace bytes trimmed by a JavaScript string trim on ASCII input. -/
def isWsByte (b : Nat) : Bool :=
  b == 32 || b == 9 || b == 10 || b == 13 || b == 11 || b == 12

/-- Both-ends trim of a raw line, route.ts line 110 (.trim on the slice). -/
def trimBytes (l : List Nat) : List Nat :=
  ((l.dropWhile isWsByte).reverse.dropWhile isWsByte).reverse

/-- Variant A per-line handling, route.ts lines 110-131: trim the slice, skip
it when empty, otherwise hand it to JSON.parse (the parameter dl); a parse
exception is caught and yields no event. -/
def lineEventA (dl : List Nat → Option StreamEvent) (l : List Nat) :
    Option StreamEvent :=
  if trimBytes l = [] then none else dl (trimBytes l)

/-- Events produced by a list of complete raw lines, in order; lines that
fail to parse are dropped and processing continues (the per-line try/catch of
route.ts lines 114-131). -/
def lineEvents (dl : List Nat → Option StreamEvent)
    (lines : List (List Nat)) : List StreamEvent :=
  lines.filterMap (lineEventA dl)

/-- Splitting a byte buffer at newline bytes (10): first component is the
list of complete lines (in order), second the leftover partial line.  This is
the repeated indexOf/slice loop of route.ts lines 108-111. -/
def extractLines : List Nat → List (List Nat) × List Nat
  | [] => ([], [])
  | b :: t =>
    if b = 10 then ([] :: (extractLines t).1, (extractLines t).2)
    else
      match extractLines t with
      | ([], r) => ([], b :: r)
      | (l :: ls, r) => ((b :: l) :: ls, r)

theorem extractLines_append (a b : List Nat) :
    extractLines (a ++ b) =
      ((extractLines a).1 ++ (extractLines ((extractLines a).2 ++ b)).1,
        (extractLines ((extractLines a).2 ++ b)).2) := by
  induction a with
  | nil => simp [extractLines]
  | cons c t ih =>
    by_cases hc : c = 10
    · subst hc
      show extractLines (10 :: (t ++ b)) = _
      simp only [extractLines, if_pos rfl, ih]
      simp
    · show extractLines (c :: (t ++ b)) = _
      simp only [extractLines, if_neg hc, ih]
      rcases h1 : extractLines t with ⟨ls1, r1⟩
      rcases ls1 with _ | ⟨l1, ls1'⟩
      · rcases h2 : extractLines (r1 ++ b) with ⟨ls2, r2⟩
        rcases ls2 with _ | ⟨l2, ls2'⟩
        · simp [extractLines, if_neg hc, h2]
        · simp [extractLines, if_neg hc, h2]
      · rcases h2 : extractLines (r1 ++ b) with ⟨ls2, r2⟩
        simp [extractLines, if_neg hc, h2]

/-- Variant A per-chunk step, route.ts lines 104-133: append the incoming
chunk to the persistent buffer, extract every complete line, parse each, and
keep the leftover partial line in the buffer.  State is (events so far,
leftover buffer bytes). -/
def bufStep (dl : List Nat → Option StreamEvent)
    (s : List StreamEvent × List Nat) (c : List Nat) :
    List StreamEvent × List Nat :=
  (s.1 ++ lineEvents dl (extractLines (s.2 ++ c)).1,
    (extractLines (s.2 ++ c)).2)

/-- The variant A event stream decoder over a sequence of byte chunks; any
leftover partial line at end of stream is discarded (route.ts never parses
the buffer after the read loop ends). -/
def decodeBuffered (dl : List Nat → Option StreamEvent)
    (chunks : List (List Nat)) : List StreamEvent :=
  (chunks.foldl (bufStep dl) ([], [])).1

/-- The segments a JavaScript split at newline produces for one chunk: all
complete lines plus the trailing (possibly empty) remainder. -/
def chunkSegs (c : List Nat) : List (List Nat) :=
  (extractLines c).1 ++ [(extractLines c).2]

/-- Variant C decoder, route.ts lines 470-476: each chunk is split at
newlines on its own (no carry-over buffer), blank segments are filtered out,
and every remaining segment is parsed as a whole line. -/
def decodeC (dl : List Nat → Option StreamEvent)
    (chunks : List (List Nat)) : List StreamEvent :=
  chunks.foldl
    (fun evs c =>
      evs ++ (chunkSegs c).filterMap
        (fun seg => if trimBytes seg = [] then none else dl seg)) []

theorem bufStep_merge (dl : List Nat → Option StreamEvent)
    (s : List StreamEvent × List Nat) (c d : List Nat) :
    bufStep dl (bufStep dl s c) d = bufStep dl s (c ++ d) := by
  unfold bufStep
  rw [← List.append_assoc s.2 c d, extractLines_append (s.2 ++ c) d]
  simp [lineEvents, List.filterMap_append]

theorem decodeBuffered_fold (dl : List Nat → Option StreamEvent) :
    ∀ (cs : List (List Nat)) (s : List StreamEvent × List Nat)
      (c : List Nat),
      cs.foldl (bufStep dl) (bufStep dl s c) = bufStep dl s (c ++ cs.flatten) := by
  intro cs
  induction cs with
  | nil => intro s c; simp [List.foldl]
  | cons c2 cs ih =>
      intro s c
      show cs.foldl (bufStep dl) (bufStep dl (bufStep dl s c) c2) = _
      rw [bufStep_merge, ih]
      simp [List.flatten]

/-- Claim C2, counterexample.  A well-formed single-line event stream (one
generation event line, newline-terminated) delivered split in two mid-line
chunks produces a different event sequence from the same bytes delivered as
one chunk when decoded by the variant C decoder: the split delivery drops the
line (both fragments fail to parse), the single-chunk delivery parses it. -/
def jsonGenLine : String :=
  "\x7b\"value\":\x7b\"type\":\"generation\",\"state\":\"start\",\"label\":\"output\"\x7d\x7d"

/-- ASCII bytes of a string (all characters involved are ASCII). -/
def asciiBytes (s : String) : List Nat :=
  s.data.map (fun c => c.toNat)

/-- JSON.parse restricted to the inputs of the counterexamples: the complete
generation line parses to its event, any other input (in particular either
fragment of the split line, which is not valid JSON) throws, i.e. yields
none. -/
def toyParse (l : List Nat) : Option StreamEvent :=
  if l = asciiBytes jsonGenLine then some (.generation "start" "output")
  else none

/-- The newline-terminated wire bytes of the single-line stream. -/
def wireBytes : List Nat := asciiBytes jsonGenLine ++ [10]

/-- Claim C2, counterexample (variant C decoder, route.ts lines 470-476):
splitting the well-formed byte sequence mid-line changes the decoded event
sequence. -/
theorem c2_counterexample :
    decodeC toyParse [wireBytes.take 4, wireBytes.drop 4] ≠
      decodeC toyParse [wireBytes] := by decide

/-- Claim C2, amended.  The buffered decoder of the primary variant
(route.ts lines 104-133), which combines TextDecoder with the streaming
option and a persistent cross-chunk buffer, is split-invariant: for every
line parser and every way of splitting the byte sequence into chunks
(including one byte per chunk and splits inside a multi-byte UTF-8
character, since chunks are arbitrary byte lists), it produces exactly the
events of the single-chunk delivery.  The other variants do not have this
property: the per-chunk decoder of variant C drops a line that is split
across two chunks (see the counterexample), and the character-wise decoders
(part_000, variants B and C) decode each chunk without the streaming option,
so a chunk boundary inside a multi-byte UTF-8 character turns the split
character into replacement characters and changes the parsed payload; they
are therefore not modelled here as byte-transparent decoders. -/
theorem c2_amended_decoder (dl : List Nat → Option StreamEvent)
    (chunks : List (List Nat)) :
    decodeBuffered dl chunks = decodeBuffered dl [chunks.flatten] := by
  cases chunks with
  | nil => rfl
  | cons c cs =>
      show (cs.foldl (bufStep dl) (bufStep dl ([], []) c)).1 = _
      rw [decodeBuffered_fold]
      simp [decodeBuffered, List.flatten]

/-- Claim C9: a decoded line that fails to parse (dl yields none, modelling a
JSON.parse exception caught by the per-line try/catch of route.ts lines
114-131) is dropped, and the events of the remaining lines are exactly those
produced had the malformed line not been present --- every well-formed line
after it is still parsed and processed, and the run is not aborted. -/
theorem c9_malformed_line (dl : List Nat → Option StreamEvent)
    (ls1 ls2 : List (List Nat)) (l : List Nat)
    (h : lineEventA dl l = none) :
    lineEvents dl (ls1 ++ l :: ls2) = lineEvents dl (ls1 ++ ls2) := by
  simp [lineEvents, List.filterMap_append, List.filterMap_cons, h]

/-- Claim C9, witness: a malformed line between two well-formed generation
lines is dropped and both surrounding lines still produce their events. -/
theorem c9_malformed_line_witness :
    lineEvents toyParse
        [asciiBytes jsonGenLine, asciiBytes "oops", asciiBytes jsonGenLine] =
      lineEvents toyParse [asciiBytes jsonGenLine, asciiBytes jsonGenLine] :=
  c9_malformed_line toyParse [asciiBytes jsonGenLine] [asciiBytes jsonGenLine]
    (asciiBytes "oops") (by decide)

/-- The fields of the user record this pipeline reads and writes: the two
status-flag pairs (standard tier: wordwareStarted/wordwareCompleted, extended
tier: paidWordwareStarted/paidWordwareCompleted), the creation timestamp in
milliseconds, and the analysis object. -/
structure UserRec where
  wordwareStarted : Bool
  wordwareCompleted : Bool
  paidWordwareStarted : Bool
  paidWordwareCompleted : Bool
  createdAt : Int
  analysis : Obj

/-- Property lookup on a JSON object given as an association list. -/
def lookupAL (l : List (String × String)) (k : String) : Option String :=
  (l.find? (fun q => q.1 == k)).map (fun q => q.2)

/-- JavaScript object spread of a patch over an existing object, observed
through property lookup: keys of the patch win, absent keys fall back. -/
def spreadMerge (e p : Obj) : Obj :=
  fun k =>
    match p k with
    | some v => some v
    | none => e k

/-- The analysis patch variant A actually merges (route.ts lines 166-170):
the properties of value.values.output plus the extra fullContent property
holding the streamed content. -/
def analysisPatch (output : List (String × String)) (sc : String) : Obj :=
  fun k => if k = "fullContent" then some sc else lookupAL output k

/-- The merged analysis written by handleFinalOutput, route.ts lines 166-170:
spread of the existing analysis, then the output object, then the
fullContent property. -/
def mergeAnalysisA (ea : Obj) (output : List (String × String))
    (sc : String) : Obj :=
  fun k =>
    if k = "fullContent" then some sc
    else
      match lookupAL output k with
      | some v => some v
      | none => ea k

/-- The statusObject applied on a successful save, route.ts lines 154-156:
started and completed both true for the tier selected by full. -/
def statusTrue (full : Bool) (u : UserRec) : UserRec :=
  if full then { u with paidWordwareStarted := true, paidWordwareCompleted := true }
  else { u with wordwareStarted := true, wordwareCompleted := true }

/-- The compensating status object of the catch branch, route.ts lines
180-182: started and completed both false for the tier. -/
def statusFalse (full : Bool) (u : UserRec) : UserRec :=
  if full then { u with paidWordwareStarted := false, paidWordwareCompleted := false }
  else { u with wordwareStarted := false, wordwareCompleted := false }

/-- The user object passed to updateUser by the finalization save, route.ts
lines 162-172. -/
def mergedUserA (output : List (String × String)) (u : UserRec)
    (full : Bool) (sc : String) : UserRec :=
  { statusTrue full u with analysis := mergeAnalysisA u.analysis output sc }

/-- handleFinalOutput, route.ts lines 152-187, as the sequence of updateUser
calls it issues.  saveOk tells whether the first (merge) call succeeds; when
it fails, the catch branch issues the compensating call and the function
still returns normally (the error is logged, not rethrown), hence Except.ok
in both branches. -/
def handleFinalOutput (output : List (String × String)) (u : UserRec)
    (full : Bool) (sc : String) (saveOk : Bool) :
    Except String (List UserRec) :=
  if saveOk then Except.ok [mergedUserA output u full sc]
  else Except.ok [mergedUserA output u full sc, statusFalse full u]

/-- The started flag of the tier selected by full. -/
def tierStarted (full : Bool) (u : UserRec) : Bool :=
  if full then u.paidWordwareStarted else u.wordwareStarted

/-- The completed flag of the tier selected by full. -/
def tierCompleted (full : Bool) (u : UserRec) : Bool :=
  if full then u.paidWordwareCompleted else u.wordwareCompleted

/-- The admission cooldown, route.ts lines 20 and 25: 3 * 60 * 1000 ms. -/
def cooldownMs : Int := 3 * 60 * 1000

/-- The admission check of route.ts lines 20-28: the run is rejected when the
selected tier is completed, or started with less than the cooldown elapsed
since user.createdAt. -/
def admissionReject (full : Bool) (u : UserRec) (now : Int) : Bool :=
  if full then
    u.paidWordwareCompleted ||
      (u.paidWordwareStarted && decide (now - u.createdAt < cooldownMs))
  else
    u.wordwareCompleted ||
      (u.wordwareStarted && decide (now - u.createdAt < cooldownMs))

/-- Outcome of the pre-stream phase of the POST handler: a returned response
value (never a thrown exception on the admission path of variant A). -/
inductive EarlyResult where
  | response (body : String) (status : Nat)
  | proceed
  deriving DecidableEq, Repr

/-- The admission branch of the POST handler, route.ts lines 20-28: a
rejected run returns a structured JSON error response (status 400 in variant
A); an admitted run proceeds. -/
def postAdmission (full : Bool) (u : UserRec) (now : Int) : EarlyResult :=
  if admissionReject full u now then .response "Wordware already started" 400
  else .proceed

/-- The externally visible steps of the POST handler in source order,
route.ts lines 13-87: fetch the user, check admission, issue the upstream
fetch, and only when it succeeded write the optimistic started flags, then
process the stream. -/
inductive PostAction where
  | fetchUser
  | fetchUpstream
  | writeStarted
  | processStream
  deriving DecidableEq, Repr

/-- The action trace of a POST run, by the branch structure of route.ts:
user not found returns early; admission reject returns early; the upstream
fetch is issued next; a non-ok upstream response returns early; otherwise the
started write happens and the stream is processed. -/
def postTrace (userFound rejected fetchOk : Bool) : List PostAction :=
  PostAction.fetchUser ::
    (if userFound then
      (if rejected then []
       else PostAction.fetchUpstream ::
         (if fetchOk then [PostAction.writeStarted, PostAction.processStream]
          else []))
     else [])

/-- One recorded finalization attempt of the variant A run: the merged user
passed to updateUser, whether that save succeeded, and the client-visible
streamed text at that moment. -/
structure SaveRecA where
  mergedUser : UserRec
  ok : Bool
  clientOutAtSave : String

/-- The mutable state of the variant A stream-processing loop, route.ts
lines 80-144: the insideFinalOutput flag, the accumulated streamedContent,
the text enqueued to the client stream so far (concatenated, in order), and
the finalization saves issued so far. -/
structure RunStateA where
  finalOutput : Bool
  streamedContent : String
  clientOut : String
  saves : List SaveRecA

/-- One event step of the variant A loop, route.ts lines 118-128: a
generation event overwrites the flag; a chunk event, only when the flag is
true, appends its payload (empty string for a missing payload) to both
streamedContent and the client stream; an outputs event calls
handleFinalOutput, whose save success is given by the oracle indexed by the
number of earlier finalization attempts. -/
def stepA (u : UserRec) (full : Bool) (oracle : Nat → Bool)
    (s : RunStateA) (e : StreamEvent) : RunStateA :=
  match e with
  | .generation st lb => { s with finalOutput := st == "start" && lb == "output" }
  | .chunk v =>
      if s.finalOutput then
        { s with streamedContent := s.streamedContent ++ v.getD "",
                 clientOut := s.clientOut ++ v.getD "" }
      else s
  | .outputs o =>
      { s with
        saves := s.saves ++
          [⟨mergedUserA o u full s.streamedContent, oracle s.saves.length,
            s.clientOut⟩] }

/-- Initial loop state, route.ts lines 82-84. -/
def initRunA : RunStateA := ⟨false, "", "", []⟩

/-- The variant A stream-processing loop over a decoded event sequence. -/
def runA (u : UserRec) (full : Bool) (oracle : Nat → Bool)
    (events : List StreamEvent) : RunStateA :=
  events.foldl (stepA u full oracle) initRunA

/-- The mutable state of the part_001 stream-processing loop, lines 164-259:
its flag, the text enqueued to the client (unconditionally, line 226), the
number of saveAnalysisAndUpdateUser calls made during the loop, and
lastProcessedValue. -/
structure P1State where
  finalOutput : Bool
  clientOut : String
  saveCount : Nat
  lastVal : Option (List (String × String))

/-- One event step of the part_001 loop, lines 211-232: the tracker is
label-guarded (like variant B), every chunk payload is enqueued regardless of
the flag, and every outputs event stores lastProcessedValue and runs the save
path.  (The forced-visibility valve of line 234 counts transport chunks, not
events, and is not part of the per-event semantics modelled here; it does not
affect the relay, which ignores the flag.) -/
def p1Step (s : P1State) (e : StreamEvent) : P1State :=
  match e with
  | .generation st lb =>
      if st = "start" then (if lb = "output" then { s with finalOutput := true } else s)
      else (if lb = "output" then { s with finalOutput := false } else s)
  | .chunk v => { s with clientOut := s.clientOut ++ v.getD "" }
  | .outputs o => { s with saveCount := s.saveCount + 1, lastVal := some o }

/-- The part_001 loop over a decoded event sequence. -/
def p1Run (events : List StreamEvent) : P1State :=
  events.foldl p1Step ⟨false, "", 0, none⟩

/-- Total number of calls of the part_001 terminal-save path in a normally
completed run, lines 172-179 and 247-257: one per outputs event during the
loop, plus one at the done branch and one more in the finally block whenever
lastProcessedValue was ever set. -/
def p1SaveTotal (events : List StreamEvent) : Nat :=
  (p1Run events).saveCount +
    (if (p1Run events).lastVal.isSome then 1 else 0) +
    (if (p1Run events).lastVal.isSome then 1 else 0)

/-- An outputs event. -/
def isOutputsEv (e : StreamEvent) : Bool :=
  match e with
  | .outputs _ => true
  | _ => false

/-- Number of outputs events in a sequence. -/
def countOutputs (events : List StreamEvent) : Nat :=
  events.countP isOutputsEv

/-- An output-labeled generation start event. -/
def isOutputStart (e : StreamEvent) : Bool :=
  match e with
  | .generation st lb => st == "start" && lb == "output"
  | _ => false

/-- Modelled from the claim wording of C5: the relay forwards the payload of
a chunk event exactly when insideFinalOutput (the variant A tracker state) is
true at the moment that chunk is processed. -/
def relayStepA (p : Bool × String) (e : StreamEvent) : Bool × String :=
  (stepFlagA p.1 e,
    match e with
    | .chunk v => if p.1 then p.2 ++ v.getD "" else p.2
    | _ => p.2)

/-- The text the claim-side relay rule forwards over a whole sequence. -/
def forwardedA (events : List StreamEvent) : String :=
  (events.foldl relayStepA (false, "")).2

/-- Concatenation of every chunk payload of the sequence, in order. -/
def allChunkText (events : List StreamEvent) : String :=
  events.foldl
    (fun acc e =>
      match e with
      | .chunk v => acc ++ v.getD ""
      | _ => acc) ""

theorem foldA_saves (u : UserRec) (full : Bool) (oracle : Nat → Bool) :
    ∀ (events : List StreamEvent) (s : RunStateA),
      ((events.foldl (stepA u full oracle) s).saves).length =
        s.saves.length + countOutputs events := by
  intro events
  induction events with
  | nil => intro s; simp [countOutputs]
  | cons e es ih =>
      intro s
      show ((es.foldl _ (stepA u full oracle s e)).saves).length = _
      rw [ih]
      cases e with
      | generation st lb =>
          simp [stepA, countOutputs, List.countP_cons, isOutputsEv]
      | chunk v =>
          by_cases h : s.finalOutput <;>
            simp [stepA, h, countOutputs, List.countP_cons, isOutputsEv]
      | outputs o =>
          simp [stepA, countOutputs, List.countP_cons, isOutputsEv]
          omega

theorem foldP1_count :
    ∀ (events : List StreamEvent) (s : P1State),
      (events.foldl p1Step s).saveCount = s.saveCount + countOutputs events := by
  intro events
  induction events with
  | nil => intro s; simp [countOutputs]
  | cons e es ih =>
      intro s
      show (es.foldl p1Step (p1Step s e)).saveCount = _
      rw [ih]
      cases e with
      | generation st lb =>
          by_cases hs : st = "start" <;> by_cases hl : lb = "output" <;>
            simp [p1Step, hs, hl, countOutputs, List.countP_cons, isOutputsEv]
      | chunk v =>
          simp [p1Step, countOutputs, List.countP_cons, isOutputsEv]
      | outputs o =>
          simp [p1Step, countOutputs, List.countP_cons, isOutputsEv]
          omega

theorem foldP1_last :
    ∀ (events : List StreamEvent) (s : P1State),
      (events.foldl p1Step s).lastVal.isSome =
        (s.lastVal.isSome || decide (0 < countOutputs events)) := by
  intro events
  induction events with
  | nil => intro s; simp [countOutputs]
  | cons e es ih =>
      intro s
      show (es.foldl p1Step (p1Step s e)).lastVal.isSome = _
      rw [ih]
      cases e with
      | generation st lb =>
          by_cases hs : st = "start" <;> by_cases hl : lb = "output" <;>
            simp [p1Step, hs, hl, countOutputs, List.countP_cons, isOutputsEv]
      | chunk v =>
          simp [p1Step, countOutputs, List.countP_cons, isOutputsEv]
      | outputs o =>
          simp [p1Step, countOutputs, List.countP_cons, isOutputsEv]

/-- User snapshot used in the concrete scenarios: standard tier already
started (a stale earlier attempt), not completed, record created at time 0,
empty analysis. -/
def cUser : UserRec := ⟨true, false, false, false, 0, fun _ => none⟩

/-- Claim C4, counterexample.  The primary variant has no finalized latch:
a run whose event stream carries two outputs events performs the terminal
finalization save twice (route.ts lines 125-128 call handleFinalOutput on
every outputs event), contradicting the claimed at-most-once save. -/
theorem c4_counterexample :
    1 < (runA cUser false (fun _ => true)
          [StreamEvent.outputs [], StreamEvent.outputs []]).saves.length := by
  have h : (runA cUser false (fun _ => true)
      [StreamEvent.outputs [], StreamEvent.outputs []]).saves.length = 2 := rfl
  omega

/-- Claim C4, amended.  There is no finalized latch: in the primary variant
every outputs event triggers the terminal-save path, so a run performs
exactly as many finalization saves as it sees outputs events; and in the
part_001 variant a normally completed run that saw at least one outputs
event additionally re-runs the save path twice more (once in the done branch
and once in the finally block), for countOutputs + 2 calls in total. -/
theorem c4_amended_saves (u : UserRec) (full : Bool) (oracle : Nat → Bool)
    (events : List StreamEvent) :
    (runA u full oracle events).saves.length = countOutputs events ∧
    p1SaveTotal events =
      countOutputs events + (if countOutputs events = 0 then 0 else 2) := by
  constructor
  · rw [runA, foldA_saves]
    simp [initRunA]
  · unfold p1SaveTotal p1Run
    rw [foldP1_count, foldP1_last]
    by_cases h : countOutputs events = 0
    · simp [h]
    · have hpos : 0 < countOutputs events := Nat.pos_of_ne_zero h
      simp [h, hpos]

/-- Claim C3, counterexample.  Take a user whose standard tier was already
started by a stale earlier attempt (started true, completed false, more than
the cooldown elapsed since creation), so a new run is admitted.  When the
finalization save of that run fails, the compensating call (route.ts lines
177-184) writes started := false, which is not the pre-run value true, and
handleFinalOutput returns normally, so the failure is not reported to its
caller. -/
theorem c3_counterexample :
    admissionReject false cUser 300000 = false ∧
    handleFinalOutput [] cUser false "" false =
      Except.ok [mergedUserA [] cUser false "", statusFalse false cUser] ∧
    ¬ ((statusFalse false cUser).wordwareStarted = cUser.wordwareStarted) := by
  refine ⟨by decide, rfl, by decide⟩

/-- Claim C3, amended.  When the finalization save fails, handleFinalOutput
issues exactly one compensating call that sets the affected tier to
started := false, completed := false (the pre-run completed value of an
admitted run is necessarily false, but a pre-run started = true is not
restored), leaves the analysis mapping and the other tier untouched, and
completes normally: the error is logged and swallowed, not reported to the
caller. -/
theorem c3_amended_rollback (output : List (String × String)) (u : UserRec)
    (full : Bool) (sc : String) :
    handleFinalOutput output u full sc false =
      Except.ok [mergedUserA output u full sc, statusFalse full u] ∧
    (statusFalse full u).analysis = u.analysis ∧
    tierStarted full (statusFalse full u) = false ∧
    tierCompleted full (statusFalse full u) = false ∧
    tierStarted (!full) (statusFalse full u) = tierStarted (!full) u ∧
    tierCompleted (!full) (statusFalse full u) = tierCompleted (!full) u := by
  cases full <;>
    simp [handleFinalOutput, statusFalse, tierStarted, tierCompleted]

theorem foldA_relay (u : UserRec) (full : Bool) (oracle : Nat → Bool) :
    ∀ (events : List StreamEvent) (s : RunStateA),
      ((events.foldl (stepA u full oracle) s).finalOutput,
        (events.foldl (stepA u full oracle) s).clientOut) =
        events.foldl relayStepA (s.finalOutput, s.clientOut) := by
  intro events
  induction events with
  | nil => intro s; rfl
  | cons e es ih =>
      intro s
      show ((es.foldl _ (stepA u full oracle s e)).finalOutput,
              (es.foldl _ (stepA u full oracle s e)).clientOut) = _
      rw [ih]
      have hstep : ((stepA u full oracle s e).finalOutput,
          (stepA u full oracle s e).clientOut) =
          relayStepA (s.finalOutput, s.clientOut) e := by
        cases e with
        | generation st lb => rfl
        | chunk v =>
            by_cases h : s.finalOutput <;>
              simp [stepA, relayStepA, stepFlagA, h]
        | outputs o => rfl
      rw [hstep]
      rfl

theorem foldP1_client :
    ∀ (events : List StreamEvent) (s : P1State),
      (events.foldl p1Step s).clientOut =
        events.foldl
          (fun acc e =>
            match e with
            | .chunk v => acc ++ v.getD ""
            | _ => acc) s.clientOut := by
  intro events
  induction events with
  | nil => intro s; rfl
  | cons e es ih =>
      intro s
      show (es.foldl p1Step (p1Step s e)).clientOut = _
      rw [ih]
      cases e with
      | generation st lb =>
          by_cases hs : st = "start" <;> by_cases hl : lb = "output" <;>
            simp [p1Step, hs, hl]
      | chunk v => rfl
      | outputs o => rfl

theorem foldA_no_start (u : UserRec) (full : Bool) (oracle : Nat → Bool) :
    ∀ (events : List StreamEvent) (s : RunStateA),
      (∀ e ∈ events, isOutputStart e = false) →
      s.finalOutput = false →
      (events.foldl (stepA u full oracle) s).finalOutput = false ∧
      (events.foldl (stepA u full oracle) s).clientOut = s.clientOut := by
  intro events
  induction events with
  | nil => intro s _ hf; exact ⟨hf, rfl⟩
  | cons e es ih =>
      intro s hall hf
      have he : isOutputStart e = false := hall e (List.mem_cons_self e es)
      have hes : ∀ x ∈ es, isOutputStart x = false :=
        fun x hx => hall x (List.mem_cons_of_mem e hx)
      have hstep : (stepA u full oracle s e).finalOutput = false ∧
          (stepA u full oracle s e).clientOut = s.clientOut := by
        cases e with
        | generation st lb =>
            refine ⟨?_, rfl⟩
            simpa [stepA, isOutputStart] using he
        | chunk v => simp [stepA, hf]
        | outputs o => exact ⟨hf, rfl⟩
      have := ih (stepA u full oracle s e) hes hstep.1
      exact ⟨this.1, this.2.trans hstep.2⟩

/-- Claim C5, counterexample.  In the part_001 variant the relay is
unconditional (line 226 enqueues every chunk payload): a chunk arriving
before any output-labeled start event is forwarded to the client even though
insideFinalOutput is false at that moment, contradicting the claimed
forwarded-iff-inside equivalence. -/
theorem c5_counterexample :
    (p1Run [StreamEvent.chunk (some "z")]).clientOut = "z" ∧
    (p1Run [StreamEvent.chunk (some "z")]).finalOutput = false :=
  ⟨rfl, rfl⟩

/-- Claim C5, amended.  In the primary variant (route.ts lines 121-124) the
claim holds: the client-visible text equals exactly the payloads of the
chunk events processed while insideFinalOutput was true, and in particular a
sequence with no output-labeled start event forwards nothing.  In the
part_001 variant every chunk payload is forwarded unconditionally,
regardless of the flag. -/
theorem c5_amended_relay (u : UserRec) (full : Bool) (oracle : Nat → Bool)
    (events : List StreamEvent) :
    (runA u full oracle events).clientOut = forwardedA events ∧
    (p1Run events).clientOut = allChunkText events ∧
    (events.all (fun e => !isOutputStart e) = true →
      (runA u full oracle events).clientOut = "") := by
  refine ⟨?_, ?_, ?_⟩
  · have h := foldA_relay u full oracle events initRunA
    have := congrArg Prod.snd h
    simpa [forwardedA, initRunA] using this
  · have h := foldP1_client events ⟨false, "", 0, none⟩
    simpa [p1Run, allChunkText] using h
  · intro hall
    have h : ∀ e ∈ events, isOutputStart e = false := by
      intro e he
      have := List.all_eq_true.mp hall e he
      simpa using this
    exact (foldA_no_start u full oracle events initRunA h rfl).2

/-- Claim C5, witness for the amended theorem: a lone chunk event, with no
output-labeled start before it, is not forwarded by the primary variant. -/
theorem c5_amended_relay_witness :
    (runA cUser false (fun _ => true) [StreamEvent.chunk (some "z")]).clientOut = "" :=
  (c5_amended_relay cUser false (fun _ => true)
    [StreamEvent.chunk (some "z")]).2.2 (by decide)

/-- Claim C6, counterexample.  In the run where the user exists, admission
passes and the upstream call succeeds (route.ts lines 46-78), the upstream
fetch is issued strictly before the optimistic started write, so the claimed
write-before-fetch order is false. -/
theorem c6_counterexample :
    PostAction.fetchUpstream ∈ postTrace true false true ∧
    PostAction.writeStarted ∈ postTrace true false true ∧
    ¬ (List.indexOf PostAction.writeStarted (postTrace true false true) <
        List.indexOf PostAction.fetchUpstream (postTrace true false true)) := by
  decide

/-- Claim C6, amended.  The order is the reverse of the claim: whenever the
optimistic started write occurs at all, the upstream fetch has already been
issued before it (and a failed upstream call means the started write never
happens). -/
theorem c6_amended_order (userFound rejected fetchOk : Bool)
    (h : PostAction.writeStarted ∈ postTrace userFound rejected fetchOk) :
    PostAction.fetchUpstream ∈ postTrace userFound rejected fetchOk ∧
    List.indexOf PostAction.fetchUpstream (postTrace userFound rejected fetchOk) <
      List.indexOf PostAction.writeStarted (postTrace userFound rejected fetchOk) := by
  cases userFound <;> cases rejected <;> cases fetchOk <;> revert h <;> decide

/-- Claim C6, witness for the amended theorem at the successful-run input. -/
theorem c6_amended_order_witness :
    PostAction.fetchUpstream ∈ postTrace true false true ∧
    List.indexOf PostAction.fetchUpstream (postTrace true false true) <
      List.indexOf PostAction.writeStarted (postTrace true false true) :=
  c6_amended_order true false true (by decide)

/-- Claim C7: the analysis merge of handleFinalOutput is the shallow
JavaScript spread of the patch over the existing analysis: keys present in
the patch replace keys of the same name, keys absent from the patch are
preserved, applying the same patch twice equals applying it once, and the
variant A merge (existing analysis, then output, then fullContent) is
exactly the spread of the analysisPatch over the existing analysis. -/
theorem c7_merge :
    (∀ (e p : Obj) (k v : String), p k = some v → spreadMerge e p k = some v) ∧
    (∀ (e p : Obj) (k : String), p k = none → spreadMerge e p k = e k) ∧
    (∀ (e p : Obj), spreadMerge (spreadMerge e p) p = spreadMerge e p) ∧
    (∀ (ea : Obj) (o : List (String × String)) (sc : String),
      mergeAnalysisA ea o sc = spreadMerge ea (analysisPatch o sc)) := by
  refine ⟨?_, ?_, ?_, ?_⟩
  · intro e p k v h; simp [spreadMerge, h]
  · intro e p k h; simp [spreadMerge, h]
  · intro e p
    funext k
    unfold spreadMerge
    cases h : p k <;> simp [h]
  · intro ea o sc
    funext k
    unfold mergeAnalysisA spreadMerge analysisPatch
    by_cases h : k = "fullContent" <;> simp [h]

/-- Existing analysis used by the C7 witness. -/
def e0 : Obj :=
  fun k => if k = "kept" then some "old"
           else if k = "hit" then some "prev" else none

/-- Patch used by the C7 witness. -/
def p0 : Obj := fun k => if k = "hit" then some "new" else none

/-- Claim C7, witness: on a concrete pair of objects the patched key is
replaced and the absent key is preserved. -/
theorem c7_merge_witness :
    spreadMerge e0 p0 "hit" = some "new" ∧
    spreadMerge e0 p0 "kept" = some "old" :=
  ⟨c7_merge.1 e0 p0 "hit" "new" (by decide),
    (c7_merge.2.1 e0 p0 "kept" (by decide)).trans (by decide)⟩

/-- Claim C8: the admission gate rejects exactly when the selected tier is
completed, or started with less than 3 minutes elapsed since the record
creation time; a rejection produces the structured already-started JSON
response (a returned value, not a thrown error) and an admitted run
proceeds. -/
theorem c8_admission (full : Bool) (u : UserRec) (now : Int) :
    admissionReject full u now =
      (tierCompleted full u ||
        (tierStarted full u && decide (now - u.createdAt < 3 * 60 * 1000))) ∧
    (admissionReject full u now = true →
      postAdmission full u now =
        EarlyResult.response "Wordware already started" 400) ∧
    (admissionReject full u now = false →
      postAdmission full u now = EarlyResult.proceed) := by
  refine ⟨?_, ?_, ?_⟩
  · cases full <;>
      simp [admissionReject, tierCompleted, tierStarted, cooldownMs]
  · intro h; simp [postAdmission, h]
  · intro h; simp [postAdmission, h]

/-- Claim C8, witness: the stale-started user within the cooldown is
rejected with the structured response. -/
theorem c8_admission_witness :
    postAdmission false cUser 60000 =
      EarlyResult.response "Wordware already started" 400 :=
  (c8_admission false cUser 60000).2.1 (by decide)

theorem foldA_inv (u : UserRec) (full : Bool) (oracle : Nat → Bool) :
    ∀ (events : List StreamEvent) (s : RunStateA),
      s.streamedContent = s.clientOut →
      (∀ r ∈ s.saves,
        r.mergedUser.analysis "fullContent" = some r.clientOutAtSave) →
      (events.foldl (stepA u full oracle) s).streamedContent =
          (events.foldl (stepA u full oracle) s).clientOut ∧
        ∀ r ∈ (events.foldl (stepA u full oracle) s).saves,
          r.mergedUser.analysis "fullContent" = some r.clientOutAtSave := by
  intro events
  induction events with
  | nil => intro s h1 h2; exact ⟨h1, h2⟩
  | cons e es ih =>
      intro s h1 h2
      show (es.foldl _ (stepA u full oracle s e)).streamedContent = _ ∧ _
      refine ih (stepA u full oracle s e) ?_ ?_
      · cases e with
        | generation st lb => exact h1
        | chunk v =>
            by_cases h : s.finalOutput <;> simp [stepA, h, h1]
        | outputs o => exact h1
      · cases e with
        | generation st lb => exact h2
        | chunk v =>
            by_cases h : s.finalOutput
            · simpa [stepA, h] using h2
            · simpa [stepA, h] using h2
        | outputs o =>
            intro r hr
            simp only [stepA, List.mem_append, List.mem_singleton] at hr
            rcases hr with hr | hr
            · exact h2 r hr
            · subst hr
              simp [mergedUserA, mergeAnalysisA, h1]

/-- Claim C10: whenever a finalization save of the primary variant succeeds,
the analysis object it persists contains the key fullContent whose value is
exactly the text enqueued to the client before the triggering outputs event
(the streamedContent and the client-visible text accumulate identically,
route.ts lines 121-124, and handleFinalOutput stores streamedContent under
fullContent, route.ts line 169, overriding the upstream result, which need
not contain that key). -/
theorem c10_full_content (u : UserRec) (full : Bool) (oracle : Nat → Bool)
    (events : List StreamEvent) :
    (runA u full oracle events).streamedContent =
        (runA u full oracle events).clientOut ∧
      ∀ r ∈ (runA u full oracle events).saves, r.ok = true →
        r.mergedUser.analysis "fullContent" = some r.clientOutAtSave := by
  have h := foldA_inv u full oracle events initRunA rfl (by intro r hr; cases hr)
  exact ⟨h.1, fun r hr _ => h.2 r hr⟩

/-- Event sequence of the C10 witness: scenario A of the spec. -/
def w10events : List StreamEvent :=
  [StreamEvent.generation "start" "output", StreamEvent.chunk (some "hi"),
   StreamEvent.generation "end" "output",
   StreamEvent.outputs [("about", "x")]]

/-- Claim C10, witness: in the concrete scenario the persisted analysis maps
fullContent to the streamed text "hi". -/
theorem c10_full_content_witness :
    (mergedUserA [("about", "x")] cUser false "hi").analysis "fullContent" =
      some "hi" := by
  refine (c10_full_content cUser false (fun _ => true) w10events).2
    ⟨mergedUserA [("about", "x")] cUser false "hi", true, "hi"⟩ ?_ rfl
  have h : (runA cUser false (fun _ => true) w10events).saves =
      [⟨mergedUserA [("about", "x")] cUser false "hi", true, "hi"⟩] := rfl
  rw [h]
  exact List.mem_singleton.mpr rfl
